import Mathlib

/-!
# Verification of the home_finder scrape-and-pipeline engine

Shallow embedding of the five core components of the repository
(`apps/WebScraper`): the bulk reconciliation engine
(`services/pcpao_importer.py`), the record crawler and parallel scrape
scheduler (`tasks/pcpao_scraper.py`), the freshness cache and pipeline task
(`tasks/scrape_data.py`), and the chain-status orchestrator query
(`views.py`).

Python dictionaries carrying records are embedded as structures; Python
string truthiness (`if p.get('parcel_id')`) is embedded as comparison with
the empty string; database interaction is embedded as explicit state
passing over a list-of-rows store, with an explicit log of the issued
batched operations so that query-count properties can be stated; `float`
percent arithmetic in the status view is embedded as exact rational
arithmetic.
-/

namespace HomeFinder

/-! ## Record store

`PropertyListing` rows, projected to the fields the verified code touches:
the unique `parcel_id` key, the `last_scraped` timestamp
(`auto_now=True`, hence always present), and an opaque association list of
remaining field values.
-/

/-- A stored `PropertyListing` row (projection). -/
structure StoredRecord where
  parcel_id : String
  last_scraped : Int
  fields : List (String × String)
deriving Repr, DecidableEq

/-- An input property dictionary for the importer
(`map_csv_row_to_property` output shape): the `parcel_id` entry
(`""` embeds a missing/empty value, matching Python falsiness) plus the
remaining field entries. -/
structure PropDict where
  parcel_id : String
  fields : List (String × String)
deriving Repr, DecidableEq

/-! ## Bulk Reconciliation Engine — `pcpao_importer.bulk_upsert_properties`

The function is embedded twice over the same algorithm:

* `bulkUpsertProperties` additionally returns the log of batched store
  operations it issues (one `readByIds` for the `filter(parcel_id__in=…)`
  query, one `bulkCreate` / `bulkUpdate` per ORM call), so the
  O(1)-queries-per-batch property is statable;
* `bulkUpsertAtomic` additionally threads the store state and an injected
  write failure through the `transaction.atomic()` block, so the
  atomicity property is statable.
-/

/-- One batched operation issued against the record store. -/
inductive StoreOp where
  /-- `PropertyListing.objects.filter(parcel_id__in=ids)` -/
  | readByIds (ids : List String)
  /-- `PropertyListing.objects.bulk_create(new, batch_size=…)` -/
  | bulkCreate (n : Nat)
  /-- `PropertyListing.objects.bulk_update(existing, fields, batch_size=…)` -/
  | bulkUpdate (n : Nat)
deriving Repr, DecidableEq

/-- Is the operation a batched read? -/
def StoreOp.isRead : StoreOp → Bool
  | .readByIds _ => true
  | _ => false

/-- Is the operation a batched write? -/
def StoreOp.isWrite : StoreOp → Bool
  | .bulkCreate _ => true
  | .bulkUpdate _ => true
  | _ => false

/-- `{'created': …, 'updated': …}` returned by the importer. -/
structure UpsertStats where
  created : Nat
  updated : Nat
deriving Repr, DecidableEq

/-- The keys present in the store. -/
def storeKeys (store : List StoredRecord) : List String :=
  store.map (·.parcel_id)

/-- `valid_properties = [p for p in properties if p.get('parcel_id')]` -/
def validProps (properties : List PropDict) : List PropDict :=
  properties.filter (fun p => p.parcel_id ≠ "")

/-- The keys of the rows returned by the batched read
`PropertyListing.objects.filter(parcel_id__in=parcelIds)`
(the key set of the `existing_records` dictionary). -/
def existingKeysOf (store : List StoredRecord) (parcelIds : List String) : List String :=
  (store.filter (fun s => parcelIds.contains s.parcel_id)).map (·.parcel_id)

/-- `bulk_upsert_properties(properties)`: returns the `{'created','updated'}`
stats together with the log of batched store operations issued, mirroring
the source line by line: drop keyless records, early-return on an empty
valid set, one `filter(parcel_id__in=…)` read, split into create/update
sets by membership in the read result, then one `bulk_create` and/or one
`bulk_update` call (each only when its set is non-empty). -/
def bulkUpsertProperties (store : List StoredRecord) (properties : List PropDict) :
    UpsertStats × List StoreOp :=
  let valid := validProps properties
  if valid.isEmpty then ({ created := 0, updated := 0 }, [])
  else
    let parcelIds := valid.map (·.parcel_id)
    -- existing_records = {p.parcel_id: p for p in filter(parcel_id__in=parcel_ids)}
    let readOp := StoreOp.readByIds parcelIds
    let existingKeys := existingKeysOf store parcelIds
    let newProps := valid.filter (fun p => ¬ existingKeys.contains p.parcel_id)
    let toUpdate := valid.filter (fun p => existingKeys.contains p.parcel_id)
    let createOps := if newProps.isEmpty then [] else [StoreOp.bulkCreate newProps.length]
    let updateOps := if toUpdate.isEmpty then [] else [StoreOp.bulkUpdate toUpdate.length]
    let created := if newProps.isEmpty then 0 else newProps.length
    let updated := if toUpdate.isEmpty then 0 else toUpdate.length
    ({ created := created, updated := updated }, readOp :: createOps ++ updateOps)

/-- A key is in the batched read's result exactly when it is both a store
key and one of the requested ids. -/
theorem mem_existingKeysOf {store : List StoredRecord} {ids : List String}
    {k : String} :
    k ∈ existingKeysOf store ids ↔ k ∈ storeKeys store ∧ k ∈ ids := by
  simp only [existingKeysOf, storeKeys, List.mem_map, List.mem_filter,
    List.elem_iff]
  constructor
  · rintro ⟨s, ⟨hs, hids⟩, rfl⟩
    exact ⟨⟨s, hs, rfl⟩, hids⟩
  · rintro ⟨⟨s, hs, rfl⟩, hids⟩
    exact ⟨s, ⟨hs, hids⟩, rfl⟩

/-- An injected store-error on one of the two batched writes. -/
inductive TxError where
  | createFailed
  | updateFailed
deriving Repr, DecidableEq

/-- Overwrite the non-key fields of an existing row (the in-memory
`setattr` loop followed by `bulk_update`). -/
def updateRow (prop : PropDict) (now : Int) (row : StoredRecord) : StoredRecord :=
  { row with fields := prop.fields, last_scraped := now }

/-- The body of the `transaction.atomic()` block, run without commit:
either the would-be store state plus stats, or the first write error. The
`failCreate` / `failUpdate` flags inject a store error into the
corresponding batched write. -/
def upsertBody (store : List StoredRecord) (valid : List PropDict)
    (now : Int) (failCreate failUpdate : Bool) :
    Except TxError (List StoredRecord × UpsertStats) :=
  let parcelIds := valid.map (·.parcel_id)
  let existingKeys := existingKeysOf store parcelIds
  let newProps := valid.filter (fun p => ¬ existingKeys.contains p.parcel_id)
  let toUpdate := valid.filter (fun p => existingKeys.contains p.parcel_id)
  -- bulk_create(new_properties)
  if ¬ newProps.isEmpty ∧ failCreate then .error .createFailed
  else
    let store1 := store ++ newProps.map (fun p =>
      { parcel_id := p.parcel_id, last_scraped := now, fields := p.fields })
    -- bulk_update(properties_to_update, update_fields)
    if ¬ toUpdate.isEmpty ∧ failUpdate then .error .updateFailed
    else
      let store2 := store1.map (fun row =>
        match toUpdate.reverse.find? (fun p => p.parcel_id = row.parcel_id) with
        | some p => updateRow p now row
        | none => row)
      .ok (store2, { created := newProps.length, updated := toUpdate.length })

/-- `bulk_upsert_properties` with the store state threaded through the
`transaction.atomic()` block: on any write error the transaction rolls
back, so the returned store is the original one and the error propagates;
otherwise the committed store is returned. -/
def bulkUpsertAtomic (store : List StoredRecord) (properties : List PropDict)
    (now : Int) (failCreate failUpdate : Bool) :
    List StoredRecord × Except TxError UpsertStats :=
  let valid := properties.filter (fun p => p.parcel_id ≠ "")
  if valid.isEmpty then (store, .ok { created := 0, updated := 0 })
  else
    match upsertBody store valid now failCreate failUpdate with
    | .ok (store', stats) => (store', .ok stats)
    | .error e => (store, .error e)

/-! ## Claims C1 and C9 -/

/-- C1 counterexample: an empty batch vacuously satisfies "all keys are
non-empty and absent from the store" and yields `created == 0 == len(records)`,
but `bulk_upsert_properties` short-circuits before the batched read
(`if not valid_properties: return stats`), so it does **not** issue exactly
one batched read: it issues zero queries. -/
theorem C1_counterexample :
    (∀ p ∈ ([] : List PropDict), p.parcel_id ≠ "" ∧ p.parcel_id ∉ storeKeys []) ∧
    (bulkUpsertProperties [] []).1.created = 0 ∧
    (bulkUpsertProperties [] []).1.updated = 0 ∧
    ¬ (bulkUpsertProperties [] []).2.countP StoreOp.isRead = 1 := by
  refine ⟨by simp, by decide, by decide, by decide⟩

/-- C1 (amended): for every **non-empty** batch of records all of whose keys
are non-empty and absent from the store, `bulk_upsert_properties` returns
`created == len(records)` and `updated == 0`; for every non-empty batch all
of whose keys already exist in the store, it returns `created == 0` and
`updated == len(records)`; in both cases it issues exactly one batched read
and one batched write (an empty batch instead short-circuits with zero
queries). -/
theorem C1_bulk_upsert_counts_and_queries :
    (∀ (store : List StoredRecord) (props : List PropDict), props ≠ [] →
      (∀ p ∈ props, p.parcel_id ≠ "" ∧ p.parcel_id ∉ storeKeys store) →
      (bulkUpsertProperties store props).1.created = props.length ∧
      (bulkUpsertProperties store props).1.updated = 0 ∧
      (bulkUpsertProperties store props).2.countP StoreOp.isRead = 1 ∧
      (bulkUpsertProperties store props).2.countP StoreOp.isWrite = 1) ∧
    (∀ (store : List StoredRecord) (props : List PropDict), props ≠ [] →
      (∀ p ∈ props, p.parcel_id ≠ "" ∧ p.parcel_id ∈ storeKeys store) →
      (bulkUpsertProperties store props).1.created = 0 ∧
      (bulkUpsertProperties store props).1.updated = props.length ∧
      (bulkUpsertProperties store props).2.countP StoreOp.isRead = 1 ∧
      (bulkUpsertProperties store props).2.countP StoreOp.isWrite = 1) := by
  constructor
  · intro store props hne hall
    have hvalid : validProps props = props :=
      List.filter_eq_self.mpr (fun p hp => by simp [(hall p hp).1])
    have hprops : props.isEmpty = false := by
      cases props with
      | nil => exact absurd rfl hne
      | cons a l => rfl
    have hexist : existingKeysOf store (props.map (·.parcel_id)) = [] := by
      rw [List.eq_nil_iff_forall_not_mem]
      intro k hk
      obtain ⟨hks, hkid⟩ := mem_existingKeysOf.mp hk
      obtain ⟨p, hp, rfl⟩ := List.mem_map.mp hkid
      exact (hall p hp).2 hks
    simp only [bulkUpsertProperties, hvalid, hprops, hexist, Bool.false_eq_true,
      if_false]
    simp [hprops, List.countP_cons, StoreOp.isRead, StoreOp.isWrite,
      List.isEmpty_iff, hne]
  · intro store props hne hall
    have hvalid : validProps props = props :=
      List.filter_eq_self.mpr (fun p hp => by simp [(hall p hp).1])
    have hprops : props.isEmpty = false := by
      cases props with
      | nil => exact absurd rfl hne
      | cons a l => rfl
    have hkeymem : ∀ p ∈ props,
        (existingKeysOf store (props.map (·.parcel_id))).contains p.parcel_id
          = true := fun p hp =>
      List.elem_iff.mpr (mem_existingKeysOf.mpr
        ⟨(hall p hp).2, List.mem_map_of_mem (·.parcel_id) hp⟩)
    have hnew : props.filter (fun p =>
        ¬ (existingKeysOf store (props.map (·.parcel_id))).contains p.parcel_id)
          = [] := by
      refine List.filter_eq_nil_iff.mpr (fun p hp hc => ?_)
      simp only [decide_eq_true_eq, List.elem_iff] at hc
      exact hc (List.elem_iff.mp (hkeymem p hp))
    have hupd : props.filter (fun p =>
        (existingKeysOf store (props.map (·.parcel_id))).contains p.parcel_id)
          = props :=
      List.filter_eq_self.mpr (fun p hp => by
        simpa using List.elem_iff.mp (hkeymem p hp))
    simp only [bulkUpsertProperties, hvalid, hprops, Bool.false_eq_true, if_false]
    simp only [hnew, hupd]
    simp [hprops, List.countP_cons, StoreOp.isRead, StoreOp.isWrite,
      List.isEmpty_iff, hne]

/-- C1 witness: concrete all-new and all-existing batches. -/
theorem C1_bulk_upsert_witness :
    ((bulkUpsertProperties [] [⟨"A", []⟩, ⟨"B", []⟩]).1.created = 2 ∧
      (bulkUpsertProperties [] [⟨"A", []⟩, ⟨"B", []⟩]).1.updated = 0 ∧
      (bulkUpsertProperties [] [⟨"A", []⟩, ⟨"B", []⟩]).2.countP StoreOp.isRead = 1 ∧
      (bulkUpsertProperties [] [⟨"A", []⟩, ⟨"B", []⟩]).2.countP StoreOp.isWrite = 1) ∧
    ((bulkUpsertProperties [⟨"A", 0, []⟩] [⟨"A", []⟩]).1.created = 0 ∧
      (bulkUpsertProperties [⟨"A", 0, []⟩] [⟨"A", []⟩]).1.updated = 1 ∧
      (bulkUpsertProperties [⟨"A", 0, []⟩] [⟨"A", []⟩]).2.countP StoreOp.isRead = 1 ∧
      (bulkUpsertProperties [⟨"A", 0, []⟩] [⟨"A", []⟩]).2.countP StoreOp.isWrite = 1) := by
  constructor
  · exact C1_bulk_upsert_counts_and_queries.1 [] [⟨"A", []⟩, ⟨"B", []⟩]
      (by decide) (by decide)
  · exact C1_bulk_upsert_counts_and_queries.2 [⟨"A", 0, []⟩] [⟨"A", []⟩]
      (by decide) (by decide)

/-- C9: the whole upsert runs inside one `transaction.atomic()` block, so if
either batched write fails the transaction rolls back and the store is left
exactly as it was — no partial batch is ever committed. -/
theorem C9_upsert_atomic (store : List StoredRecord) (props : List PropDict)
    (now : Int) (failCreate failUpdate : Bool) (e : TxError)
    (h : (bulkUpsertAtomic store props now failCreate failUpdate).2 = .error e) :
    (bulkUpsertAtomic store props now failCreate failUpdate).1 = store := by
  simp only [bulkUpsertAtomic] at h ⊢
  split at h
  · simp at h
  · split at h <;> split <;> simp_all

/-- C9 witness: a batch with one new and one existing record where the
batched update fails after the batched create would have succeeded: the
store reverts to its original contents. -/
theorem C9_upsert_atomic_witness :
    (bulkUpsertAtomic [⟨"A", 0, []⟩] [⟨"B", []⟩, ⟨"A", []⟩] 5 false true).2 =
      .error .updateFailed ∧
    (bulkUpsertAtomic [⟨"A", 0, []⟩] [⟨"B", []⟩, ⟨"A", []⟩] 5 false true).1 =
      [⟨"A", 0, []⟩] :=
  ⟨by rfl, C9_upsert_atomic [⟨"A", 0, []⟩] [⟨"B", []⟩, ⟨"A", []⟩] 5 false true
    .updateFailed (by rfl)⟩

/-! ## Record Crawler — `pcpao_scraper._extract_parcels_from_page`

A rendered results page is embedded as the document-ordered list of its
`a[href*="property-details"]` links, each carrying its stripped text and
its `href` attribute. The running de-duplication set `existing_ids` is
embedded as a list with membership. -/

/-- One `a[href*="property-details"]` link of a rendered page:
`link.get_text(strip=True)` and `link.get('href', '')`. -/
structure PageLink where
  text : String
  href : String
deriving Repr, DecidableEq

/-- A candidate `{'parcel_id': …, 'detail_url': …}` dictionary. -/
structure Parcel where
  parcel_id : String
  detail_url : String
deriving Repr, DecidableEq

/-- `PCPAOScraper.BASE_URL` -/
def BASE_URL : String := "https://www.pcpao.gov/"

/-- `re.match(r'^\d{2}-\d{2}-\d{2}-\d{5}-\d{3}-\d{4}$', s)`: six
fixed-width digit groups (widths 2,2,2,5,3,4) separated by dashes — 23
characters with dashes exactly at offsets 2, 5, 8, 14, 18 and ASCII
digits everywhere else (`\d` embedded as an ASCII digit). -/
def parcelPatternMatch (s : String) : Bool :=
  let cs := s.toList
  cs.length = 23 &&
    (List.range 23).all (fun i =>
      if i = 2 ∨ i = 5 ∨ i = 8 ∨ i = 14 ∨ i = 18 then cs.getD i ' ' = '-'
      else (cs.getD i ' ').isDigit)

/-- `href.startswith('http')`, embedded at character level. -/
def strStartsWith (s p : String) : Bool :=
  s.toList.take p.toList.length = p.toList

/-- `href.lstrip('/')`: drop leading slash characters. -/
def lstripSlashes (s : String) : String :=
  ⟨s.toList.dropWhile (· = '/')⟩

/-- `href if href.startswith('http') else f"{BASE_URL}{href.lstrip('/')}"` -/
def resolveDetailUrl (href : String) : String :=
  if strStartsWith href "http" then href
  else BASE_URL ++ lstripSlashes href

/-- `_extract_parcels_from_page(existing_ids)`: walk the page's
property-details links in document order; a link's text is kept iff it
matches the parcel pattern and is not yet in `existing_ids`; kept texts
are added to `existing_ids`. Returns the new parcels (with resolved
detail urls) and the grown seen-set. -/
def extractParcelsFromPage (links : List PageLink) (existingIds : List String) :
    List Parcel × List String :=
  match links with
  | [] => ([], existingIds)
  | l :: rest =>
    if parcelPatternMatch l.text && !(existingIds.contains l.text) then
      let r := extractParcelsFromPage rest (l.text :: existingIds)
      ({ parcel_id := l.text, detail_url := resolveDetailUrl l.href } :: r.1, r.2)
    else
      extractParcelsFromPage rest existingIds

/-- C2: a candidate string is among the extracted parcel ids iff it appears
as the text of a property-details link, matches the fixed
`NN-NN-NN-NNNNN-NNN-NNNN` pattern, and was not already seen: every
non-matching string is excluded and every matching not-yet-seen string is
included. -/
theorem C2_extraction_pattern_filter (links : List PageLink)
    (existingIds : List String) (s : String) :
    s ∈ (extractParcelsFromPage links existingIds).1.map (·.parcel_id) ↔
      parcelPatternMatch s = true ∧ s ∉ existingIds ∧
        s ∈ links.map (·.text) := by
  induction links generalizing existingIds with
  | nil => simp [extractParcelsFromPage]
  | cons l rest ih =>
    simp only [extractParcelsFromPage]
    cases hb : (parcelPatternMatch l.text && !(existingIds.contains l.text)) with
    | false =>
      simp only [Bool.false_eq_true, if_false, ih]
      simp only [Bool.and_eq_false_iff, Bool.not_eq_false', List.elem_iff] at hb
      by_cases hsl : s = l.text
      · subst hsl
        simp only [List.map_cons, List.mem_cons]
        constructor
        · rintro ⟨hA, hB, hC⟩
          exact ⟨hA, hB, Or.inr hC⟩
        · rintro ⟨hA, hB, _⟩
          rcases hb with hb | hb
          · rw [hA] at hb; cases hb
          · exact absurd hb hB
      · simp [hsl]
    | true =>
      simp only [if_true, List.map_cons, List.mem_cons, ih]
      obtain ⟨hpat, hseen⟩ : parcelPatternMatch l.text = true ∧
          l.text ∉ existingIds := by
        simpa [List.elem_iff] using hb
      by_cases hsl : s = l.text
      · subst hsl
        simp [hpat, hseen]
      · simp [hsl, List.mem_cons]

/-- C2 witness: on a concrete page with one well-formed, one malformed and
one duplicate link, exactly the well-formed unseen key is included. -/
theorem C2_extraction_witness :
    ("14-31-15-91961-004-0110" ∈
      (extractParcelsFromPage
        [⟨"14-31-15-91961-004-0110", "/property-details?s=1"⟩,
         ⟨"not-a-parcel", "/property-details?s=2"⟩,
         ⟨"14-31-15-91961-004-0110", "/property-details?s=1"⟩]
        []).1.map (·.parcel_id)) ∧
    ¬ ("not-a-parcel" ∈
      (extractParcelsFromPage
        [⟨"14-31-15-91961-004-0110", "/property-details?s=1"⟩,
         ⟨"not-a-parcel", "/property-details?s=2"⟩,
         ⟨"14-31-15-91961-004-0110", "/property-details?s=1"⟩]
        []).1.map (·.parcel_id)) := by
  constructor
  · exact (C2_extraction_pattern_filter _ [] "14-31-15-91961-004-0110").mpr
      (by refine ⟨by decide, by simp, by simp⟩)
  · intro h
    have := (C2_extraction_pattern_filter _ [] "not-a-parcel").mp h
    revert this
    decide

/-! ## Record Crawler — `pcpao_scraper.search_properties_with_urls`

The browser interaction is embedded as an environment: possible
exceptions while navigating / waiting for the search input, a possible
timeout waiting for the first results table, the property-details links
rendered for a submitted query, and a script of pagination outcomes
(one event per iteration of the pagination `while` loop). Exceptions are
threaded as `Except`; the top-level `except Exception` handler of the
source is the `match` in `searchPropertiesWithUrls`. -/

/-- The search fields recognized by the query builder, in source order. -/
structure SearchCriteria where
  address : Option String := none
  city : Option String := none
  zip_code : Option String := none
  owner_name : Option String := none
deriving Repr, DecidableEq

/-- Python truthiness of `search_criteria.get(field)`: present and
non-empty. -/
def truthy : Option String → Bool
  | some v => v ≠ ""
  | none => false

/-- The `search_terms` list: recognized truthy fields in source order. -/
def critTerms (c : SearchCriteria) : List String :=
  (if truthy c.address then [c.address.getD ""] else []) ++
    (if truthy c.city then [c.city.getD ""] else []) ++
    (if truthy c.zip_code then [c.zip_code.getD ""] else []) ++
    (if truthy c.owner_name then [c.owner_name.getD ""] else [])

/-- `search_query = ' '.join(search_terms) if search_terms else 'Clearwater'` -/
def buildSearchQuery (c : SearchCriteria) : String :=
  let terms := critTerms c
  if terms.isEmpty then "Clearwater" else String.intercalate " " terms

/-- One iteration of the pagination loop, as observed from the browser. -/
inductive CrawlEvent where
  /-- the next-button click succeeded and this page rendered -/
  | page (links : List PageLink)
  /-- `NoSuchElementException`: next button disabled or missing -/
  | noNext
  /-- `StaleElementReferenceException`: wait briefly and retry -/
  | stale
  /-- an unexpected exception escaping to the top-level handler -/
  | raise (msg : String)

/-- The browser-side environment of one search run. -/
structure SearchEnv where
  /-- `driver.get(SEARCH_URL)` raises -/
  navigateErr : Option String := none
  /-- the wait for the `txtKeyWord` input raises -/
  inputErr : Option String := none
  /-- `TimeoutException` waiting for the first results table row -/
  tableTimeout : Bool := false
  /-- property-details links rendered for the submitted query -/
  firstPage : String → List PageLink
  /-- pagination outcomes after the first page, per submitted query -/
  pagination : String → List CrawlEvent

/-- `MAX_PAGES = 100` -/
def MAX_PAGES : Nat := 100

/-- The pagination `while page_num < MAX_PAGES` loop: `noNext` breaks,
`stale` retries without advancing, a page's links are extracted against
the seen-set and an empty yield stops pagination
(`consecutive_empty_pages >= 1`), and an unexpected exception carries the
parcels collected so far out to the top-level handler. -/
def paginate : List CrawlEvent → List String → List Parcel → Nat →
    Except (String × List Parcel) (List Parcel)
  | [], _, parcels, _ => .ok parcels
  | e :: rest, seen, parcels, pageNum =>
    if MAX_PAGES ≤ pageNum then .ok parcels
    else
      match e with
      | .noNext => .ok parcels
      | .stale => paginate rest seen parcels pageNum
      | .raise m => .error (m, parcels)
      | .page links =>
        let r := extractParcelsFromPage links seen
        let parcels' := parcels ++ r.1
        if r.1.isEmpty then .ok parcels'
        else paginate rest r.2 parcels' (pageNum + 1)

/-- The body of the `try` block of `search_properties_with_urls`: navigate,
wait for the input, build and submit the query, handle the two graceful
empty-result exits, extract the first page, then paginate. An `error`
result is an exception escaping the body, carrying the parcels collected
so far (the local `parcels` list). -/
def searchBody (criteria : SearchCriteria) (env : SearchEnv) :
    Except (String × List Parcel) (List Parcel) :=
  match env.navigateErr with
  | some m => .error (m, [])
  | none =>
    match env.inputErr with
    | some m => .error (m, [])
    | none =>
      let q := buildSearchQuery criteria
      if env.tableTimeout then .ok []
      else
        let firstLinks := env.firstPage q
        if firstLinks.isEmpty then .ok []
        else
          let r := extractParcelsFromPage firstLinks []
          paginate (env.pagination q) r.2 r.1 1

/-- `search_properties_with_urls`: the whole body runs under
`except Exception as e: logger.error(…)` followed by `return parcels`, so
an escaping exception is swallowed and the parcels collected so far are
returned. -/
def searchPropertiesWithUrls (criteria : SearchCriteria) (env : SearchEnv) :
    List Parcel :=
  match searchBody criteria env with
  | .ok parcels => parcels
  | .error (_, parcels) => parcels

/-! ## Claims C8 and C10 -/

/-- A concrete environment: one well-formed first-page link for the
default query, then an unexpected exception on the first pagination
step. -/
def boomEnv : SearchEnv where
  firstPage := fun q =>
    if q = "Clearwater" then [⟨"14-31-15-91961-004-0110", "/property-details?s=1"⟩]
    else []
  pagination := fun _ => [.raise "boom"]

/-- C8 counterexample: in `boomEnv` an unexpected exception is raised
mid-search (the body exits with an error), yet
`search_properties_with_urls` returns normally with the partial candidate
list instead of propagating the exception to the caller. -/
theorem C8_counterexample :
    (∃ m ps, searchBody {} boomEnv = .error (m, ps)) ∧
    searchPropertiesWithUrls {} boomEnv =
      [⟨"14-31-15-91961-004-0110",
        "https://www.pcpao.gov/property-details?s=1"⟩] := by
  constructor
  · exact ⟨"boom", [⟨"14-31-15-91961-004-0110",
      "https://www.pcpao.gov/property-details?s=1"⟩], by rfl⟩
  · decide

/-- C8 (amended): an unexpected exception aborts the search loop but does
**not** propagate: the top-level handler catches it, and the function
returns the candidates collected before the exception. -/
theorem C8_swallowed (criteria : SearchCriteria) (env : SearchEnv)
    (m : String) (ps : List Parcel)
    (h : searchBody criteria env = .error (m, ps)) :
    searchPropertiesWithUrls criteria env = ps := by
  simp [searchPropertiesWithUrls, h]

/-- C8 witness: the amended behavior at the concrete environment. -/
theorem C8_swallowed_witness :
    searchPropertiesWithUrls {} boomEnv =
      [⟨"14-31-15-91961-004-0110",
        "https://www.pcpao.gov/property-details?s=1"⟩] :=
  C8_swallowed {} boomEnv "boom"
    [⟨"14-31-15-91961-004-0110", "https://www.pcpao.gov/property-details?s=1"⟩]
    (by rfl)

/-- C10: if none of the recognized fields (`address`, `city`, `zip_code`,
`owner_name`) is present and non-empty, the submitted query is the fixed
default `'Clearwater'` — and such a search proceeds normally, so empty
criteria can yield a non-empty candidate list (witnessed in `boomEnv`,
whose results table for `'Clearwater'` is non-empty). -/
theorem C10_default_query (c : SearchCriteria)
    (h : truthy c.address = false ∧ truthy c.city = false ∧
      truthy c.zip_code = false ∧ truthy c.owner_name = false) :
    buildSearchQuery c = "Clearwater" ∧
    searchPropertiesWithUrls c boomEnv ≠ [] := by
  obtain ⟨h1, h2, h3, h4⟩ := h
  have hterms : critTerms c = [] := by
    simp [critTerms, h1, h2, h3, h4]
  have hq : buildSearchQuery c = "Clearwater" := by
    simp [buildSearchQuery, hterms]
  refine ⟨hq, ?_⟩
  simp only [searchPropertiesWithUrls, searchBody, boomEnv, hq]
  decide

/-- C10 witness: fully empty criteria search with the default query and
return a non-empty candidate list. -/
theorem C10_default_query_witness :
    buildSearchQuery {} = "Clearwater" ∧
    searchPropertiesWithUrls {} boomEnv ≠ [] :=
  C10_default_query {} ⟨rfl, rfl, rfl, rfl⟩

/-! ## Freshness Cache — `scrape_data.scrape_pinellas_properties`, step 2

`cache_cutoff = timezone.now() - timedelta(hours=CACHE_HOURS)` is embedded
as `now - ttl` over integer time; the single ORM call
`filter(parcel_id__in=…, last_scraped__gte=cache_cutoff)` is embedded as
`runCacheQuery`, and the list of issued queries is returned so the
one-query property is statable. -/

/-- One batched existence+timestamp query. -/
structure CacheQuery where
  ids : List String
  cutoff : Int
deriving Repr, DecidableEq

/-- `PropertyListing.objects.filter(parcel_id__in=q.ids,
last_scraped__gte=q.cutoff).values_list('parcel_id', flat=True)` -/
def runCacheQuery (store : List StoredRecord) (q : CacheQuery) : List String :=
  (store.filter (fun r =>
    q.ids.contains r.parcel_id && decide (q.cutoff ≤ r.last_scraped))).map (·.parcel_id)

/-- Step 2 of the pipeline task: build the candidates' id list, issue one
batched query, collect the fresh ids into the `cached_parcels` set
(deduplicated), and keep as `parcels_to_scrape` the candidates not in it.
Returns (cached ids, candidates to scrape, issued queries). -/
def cacheCheck (store : List StoredRecord) (parcels : List Parcel)
    (now ttl : Int) : List String × List Parcel × List CacheQuery :=
  let q : CacheQuery := ⟨parcels.map (·.parcel_id), now - ttl⟩
  let cachedParcels := (runCacheQuery store q).dedup
  let toScrape := parcels.filter (fun p => ¬ cachedParcels.contains p.parcel_id)
  (cachedParcels, toScrape, [q])

/-- A key is reported fresh by the batched query iff some store row has
that key, the key was asked for, and the row's timestamp is at or after
the cutoff. -/
theorem mem_runCacheQuery {store : List StoredRecord} {q : CacheQuery}
    {k : String} :
    k ∈ runCacheQuery store q ↔
      ∃ r ∈ store, r.parcel_id = k ∧ k ∈ q.ids ∧ q.cutoff ≤ r.last_scraped := by
  simp only [runCacheQuery, List.mem_map, List.mem_filter, Bool.and_eq_true,
    decide_eq_true_eq, List.elem_iff]
  constructor
  · rintro ⟨r, ⟨hr, hid, hts⟩, rfl⟩
    exact ⟨r, hr, rfl, hid, hts⟩
  · rintro ⟨r, hr, rfl, hid, hts⟩
    exact ⟨r, ⟨hr, hid, hts⟩, rfl⟩

/-! ## Claim C3 -/

/-- C3: the freshness check issues exactly one batched store query however
many candidates there are, and a candidate is skipped (classified fresh)
iff some stored row with its key has `last_scraped` at or after
`now - ttl`. -/
theorem C3_freshness_cache (store : List StoredRecord) (parcels : List Parcel)
    (now ttl : Int) :
    (cacheCheck store parcels now ttl).2.2.length = 1 ∧
    ∀ p ∈ parcels,
      (p ∉ (cacheCheck store parcels now ttl).2.1 ↔
        ∃ r ∈ store, r.parcel_id = p.parcel_id ∧ now - ttl ≤ r.last_scraped) := by
  refine ⟨rfl, fun p hp => ?_⟩
  simp only [cacheCheck, List.mem_filter, decide_eq_true_eq, List.elem_iff,
    not_and, List.mem_dedup]
  constructor
  · intro h
    have hmem := h hp
    rw [not_not] at hmem
    obtain ⟨r, hr, hk, _, hts⟩ := mem_runCacheQuery.mp hmem
    exact ⟨r, hr, hk, hts⟩
  · rintro ⟨r, hr, hk, hts⟩ _
    rw [not_not]
    refine mem_runCacheQuery.mpr ⟨r, hr, hk, ?_, hts⟩
    show p.parcel_id ∈ parcels.map (·.parcel_id)
    exact List.mem_map_of_mem (·.parcel_id) hp

/-- C3 witness: with a 24-unit TTL at time 110, the candidate refreshed at
100 is skipped and exactly one query was issued. -/
theorem C3_freshness_cache_witness :
    (cacheCheck [⟨"A", 100, []⟩, ⟨"B", 10, []⟩]
      [⟨"A", "u"⟩, ⟨"B", "u"⟩, ⟨"C", "u"⟩] 110 24).2.2.length = 1 ∧
    (⟨"A", "u"⟩ : Parcel) ∉
      (cacheCheck [⟨"A", 100, []⟩, ⟨"B", 10, []⟩]
        [⟨"A", "u"⟩, ⟨"B", "u"⟩, ⟨"C", "u"⟩] 110 24).2.1 :=
  ⟨(C3_freshness_cache _ _ 110 24).1,
    ((C3_freshness_cache _ _ 110 24).2 ⟨"A", "u"⟩ (by decide)).mpr
      ⟨⟨"A", 100, []⟩, by decide, rfl, by decide⟩⟩

/-! ## Pipeline run result — `scrape_data.scrape_pinellas_properties`

The whole task is embedded as a function of the candidates found by the
search (`parcels`, already limited), the store, the per-candidate detail
extraction (`extract`, `none` embedding a raised exception whose worker
fallback is the minimal `{'parcel_id': …}` record), and the post-filter
predicate (`filter_properties_by_criteria`, opaque here). The returned
dictionary may omit the `cached_count` / `scraped_count` keys, embedded as
`Option` fields. -/

/-- The result dictionary of one pipeline run (`search_criteria` entry
omitted — it is echoed input). `none` embeds an absent key. -/
structure ScrapeBatchResult where
  property_ids : List String
  cached_count : Option Nat
  scraped_count : Option Nat
deriving Repr, DecidableEq

/-- One candidate's detail scrape as seen by the worker loop: the
extraction result, or on a raised exception the minimal
`{'parcel_id': parcel_id}` record. -/
def scrapeOne (extract : Parcel → Option PropDict) (p : Parcel) : PropDict :=
  match extract p with
  | some d => d
  | none => { parcel_id := p.parcel_id, fields := [] }

/-- `scrape_pinellas_properties(search_criteria, limit)` after the search
step: early-return with only `property_ids`/`search_criteria` keys when no
candidates were found; otherwise freshness-check, scrape the non-cached
candidates, post-filter, save records with a truthy `parcel_id` (appending
their ids), and report `scraped_count = len(property_ids) - cached_count`. -/
def scrapePinellasProperties (store : List StoredRecord) (parcels : List Parcel)
    (now ttl : Int) (extract : Parcel → Option PropDict)
    (keep : PropDict → Bool) : ScrapeBatchResult :=
  if parcels.isEmpty then
    { property_ids := [], cached_count := none, scraped_count := none }
  else
    let cc := cacheCheck store parcels now ttl
    let cachedParcels := cc.1
    let toScrape := cc.2.1
    let cachedCount := cachedParcels.length
    let scraped := (toScrape.map (scrapeOne extract)).filter keep
    let saved := (scraped.map (·.parcel_id)).filter (fun k => k ≠ "")
    let propertyIds := cachedParcels ++ saved
    { property_ids := propertyIds,
      cached_count := some cachedCount,
      scraped_count := some (propertyIds.length - cachedCount) }

/-! ## Claim C7 -/

/-- C7 counterexample: the run where the crawl finds no candidates returns
`{'property_ids': [], 'search_criteria': …}` **without** the
`cached_count` and `scraped_count` keys, so the returned result does not
carry the counts the invariant equates. -/
theorem C7_counterexample :
    scrapePinellasProperties [] [] 0 0 (fun _ => none) (fun _ => true) =
      { property_ids := [], cached_count := none, scraped_count := none } := by
  rfl

/-- C7 (amended): reading an absent count as 0 (as the next pipeline stage
does via `scrape_result.get('cached_count', 0)`), every run satisfies
`len(property_ids) == cached_count + scraped_count`; and whenever the
crawl found at least one candidate both counts are actually present. -/
theorem C7_keys_eq_cached_plus_scraped (store : List StoredRecord)
    (parcels : List Parcel) (now ttl : Int)
    (extract : Parcel → Option PropDict) (keep : PropDict → Bool) :
    ((scrapePinellasProperties store parcels now ttl extract keep).property_ids.length =
      (scrapePinellasProperties store parcels now ttl extract keep).cached_count.getD 0 +
      (scrapePinellasProperties store parcels now ttl extract keep).scraped_count.getD 0) ∧
    (parcels ≠ [] →
      (scrapePinellasProperties store parcels now ttl extract keep).cached_count.isSome ∧
      (scrapePinellasProperties store parcels now ttl extract keep).scraped_count.isSome) := by
  by_cases hp : parcels.isEmpty
  · constructor
    · simp [scrapePinellasProperties, hp]
    · intro hne
      exact absurd (List.isEmpty_iff.mp hp) hne
  · simp only [scrapePinellasProperties, hp, Bool.false_eq_true, if_false]
    refine ⟨?_, fun _ => ⟨rfl, rfl⟩⟩
    simp only [Option.getD_some, List.length_append]
    omega

/-- C7 witness: a run with one cached and one freshly scraped candidate. -/
theorem C7_keys_witness :
    ((scrapePinellasProperties [⟨"A", 100, []⟩]
        [⟨"A", "u"⟩, ⟨"B", "u"⟩] 110 24 (fun _ => none)
        (fun _ => true)).property_ids.length =
      (scrapePinellasProperties [⟨"A", 100, []⟩]
        [⟨"A", "u"⟩, ⟨"B", "u"⟩] 110 24 (fun _ => none)
        (fun _ => true)).cached_count.getD 0 +
      (scrapePinellasProperties [⟨"A", 100, []⟩]
        [⟨"A", "u"⟩, ⟨"B", "u"⟩] 110 24 (fun _ => none)
        (fun _ => true)).scraped_count.getD 0) ∧
    (scrapePinellasProperties [⟨"A", 100, []⟩]
      [⟨"A", "u"⟩, ⟨"B", "u"⟩] 110 24 (fun _ => none)
      (fun _ => true)).cached_count.isSome ∧
    (scrapePinellasProperties [⟨"A", 100, []⟩]
      [⟨"A", "u"⟩, ⟨"B", "u"⟩] 110 24 (fun _ => none)
      (fun _ => true)).scraped_count.isSome :=
  ⟨(C7_keys_eq_cached_plus_scraped [⟨"A", 100, []⟩]
      [⟨"A", "u"⟩, ⟨"B", "u"⟩] 110 24 (fun _ => none) (fun _ => true)).1,
    (C7_keys_eq_cached_plus_scraped [⟨"A", 100, []⟩]
      [⟨"A", "u"⟩, ⟨"B", "u"⟩] 110 24 (fun _ => none) (fun _ => true)).2
      (by decide)⟩

/-! ## Parallel Scrape Scheduler — `pcpao_scraper.scrape_properties_parallel`

Candidates are tagged with their input position (`_index`), distributed
round-robin over `max_workers` shards (empty shards dropped), and each
worker's `(index, data)` pairs are written into a pre-sized results array
as its future completes. The order in which `as_completed` yields the
futures is embedded as the `completionOrder` parameter — any permutation
of the shards. -/

/-- `_scrape_worker(parcels_chunk)`: process one shard sequentially,
pairing each candidate's original index with its scraped data; a
candidate whose extraction raises contributes the minimal
`{'parcel_id': …}` record (`scrapeOne`). -/
def workerRun (extract : Parcel → Option PropDict)
    (chunk : List (Nat × Parcel)) : List (Nat × PropDict) :=
  chunk.map (fun ip => (ip.1, scrapeOne extract ip.2))

/-- `chunks[i % max_workers].append(parcel)` over the indexed candidates,
then `chunks = [c for c in chunks if c]`. -/
def roundRobinChunks (indexed : List (Nat × Parcel)) (k : Nat) :
    List (List (Nat × Parcel)) :=
  ((List.range k).map (fun j => indexed.filter (fun ip => ip.1 % k == j))).filter
    (fun c => !c.isEmpty)

/-- `for idx, property_data in worker_results: results[idx] = property_data` -/
def placeResults (acc : List (Option PropDict)) (rs : List (Nat × PropDict)) :
    List (Option PropDict) :=
  rs.foldl (fun a r => a.set r.1 (some r.2)) acc

/-- `scrape_properties_parallel(parcels, max_workers)`: early-return on no
candidates; otherwise fill the pre-sized `results = [None] * len(parcels)`
array with each completed worker's indexed results (in `completionOrder`),
then drop any `None` slots. -/
def scrapePropertiesParallel (extract : Parcel → Option PropDict)
    (parcels : List Parcel) (completionOrder : List (List (Nat × Parcel))) :
    List PropDict :=
  if parcels.isEmpty then []
  else
    let final := completionOrder.foldl
      (fun acc chunk => placeResults acc (workerRun extract chunk))
      (List.replicate parcels.length none)
    final.filterMap id

/-- A permutation of the shard list flattens to a permutation of the
pairs. -/
theorem flatten_perm_of_perm {α : Type} {l₁ l₂ : List (List α)}
    (h : l₁.Perm l₂) : l₁.flatten.Perm l₂.flatten := by
  induction h with
  | nil => rfl
  | cons x _ ih => simpa using ih.append_left x
  | swap x y l =>
    simp only [List.flatten_cons, ← List.append_assoc]
    exact List.perm_append_comm.append_right _
  | trans _ _ ih₁ ih₂ => exact ih₁.trans ih₂

/-- Folding the per-shard writes equals one pass over the flattened
pairs. -/
theorem foldl_placeResults (extract : Parcel → Option PropDict)
    (order : List (List (Nat × Parcel))) (acc : List (Option PropDict)) :
    order.foldl (fun acc chunk => placeResults acc (workerRun extract chunk)) acc =
      placeResults acc ((order.map (workerRun extract)).flatten) := by
  induction order generalizing acc with
  | nil => rfl
  | cons c rest ih =>
    simp only [List.foldl_cons, List.map_cons, List.flatten_cons]
    rw [ih]
    simp only [placeResults, List.foldl_append]

/-- Writing results never resizes the array. -/
theorem placeResults_length (acc : List (Option PropDict))
    (rs : List (Nat × PropDict)) :
    (placeResults acc rs).length = acc.length := by
  induction rs generalizing acc with
  | nil => rfl
  | cons r rest ih =>
    simp only [placeResults, List.foldl_cons] at *
    rw [ih, List.length_set]

/-- A key absent from the pairs is never looked up successfully. -/
theorem lookup_eq_none_of_not_mem_keys {ps : List (Nat × PropDict)} {j : Nat}
    (h : j ∉ ps.map Prod.fst) : ps.lookup j = none := by
  induction ps with
  | nil => rfl
  | cons a rest ih =>
    simp only [List.map_cons, List.mem_cons, not_or] at h
    obtain ⟨h1, h2⟩ := h
    cases a with
    | mk i v =>
      rw [List.lookup_cons]
      have : (j == i) = false := by simpa using h1
      rw [this]
      exact ih h2

/-- With duplicate-free keys, membership determines the lookup result. -/
theorem lookup_eq_some_of_mem_of_nodup {ps : List (Nat × PropDict)}
    {j : Nat} {v : PropDict} (hnd : (ps.map Prod.fst).Nodup)
    (hm : (j, v) ∈ ps) : ps.lookup j = some v := by
  induction ps with
  | nil => cases hm
  | cons a rest ih =>
    cases a with
    | mk i w =>
      simp only [List.map_cons, List.nodup_cons] at hnd
      rcases List.mem_cons.mp hm with heq | hrest
      · obtain ⟨rfl, rfl⟩ := Prod.mk.injEq .. ▸ heq
        rw [List.lookup_cons]
        simp
      · have hji : j ≠ i := by
          rintro rfl
          exact hnd.1 (List.mem_map_of_mem Prod.fst hrest)
        rw [List.lookup_cons]
        have : (j == i) = false := by simpa using hji
        rw [this]
        exact ih hnd.2 hrest

/-- A successful lookup is a member. -/
theorem mem_of_lookup_eq_some {ps : List (Nat × PropDict)} {j : Nat}
    {v : PropDict} (h : ps.lookup j = some v) : (j, v) ∈ ps := by
  induction ps with
  | nil => cases h
  | cons a rest ih =>
    cases a with
    | mk i w =>
      rw [List.lookup_cons] at h
      cases hji : (j == i) with
      | true =>
        rw [hji] at h
        obtain rfl : w = v := by simpa using h
        obtain rfl : j = i := by simpa using hji
        exact List.mem_cons_self _ _
      | false =>
        rw [hji] at h
        exact List.mem_cons_of_mem _ (ih h)

/-- The contents of the results array after all writes: position `j` holds
the pair written for key `j`, untouched positions keep their initial
value. Requires duplicate-free keys (each position is written at most
once). -/
theorem placeResults_getElem? (ps : List (Nat × PropDict))
    (acc : List (Option PropDict)) (hnd : (ps.map Prod.fst).Nodup) (j : Nat) :
    (placeResults acc ps)[j]? =
      match ps.lookup j with
      | some v => if j < acc.length then some (some v) else acc[j]?
      | none => acc[j]? := by
  induction ps generalizing acc with
  | nil => rfl
  | cons r rest ih =>
    cases r with
    | mk i v =>
      simp only [List.map_cons, List.nodup_cons] at hnd
      have hstep : placeResults acc ((i, v) :: rest) =
          placeResults (acc.set i (some v)) rest := rfl
      rw [hstep, ih _ hnd.2, List.lookup_cons]
      by_cases hji : j = i
      · subst hji
        have hrest : rest.lookup j = none := lookup_eq_none_of_not_mem_keys hnd.1
        rw [hrest]
        simp only [beq_self_eq_true]
        by_cases hlt : j < acc.length
        · rw [List.getElem?_set_self (by simpa using hlt), if_pos hlt]
        · rw [List.set_eq_of_length_le (Nat.le_of_not_lt hlt), if_neg hlt]
      · have hne : (j == i) = false := by simpa using hji
        rw [hne]
        have hget : (acc.set i (some v))[j]? = acc[j]? :=
          List.getElem?_set_ne (fun h => hji h.symm)
        cases rest.lookup j <;> simp [hget, List.length_set]

/-- A pair is produced by some worker iff its index/candidate pair was
distributed — i.e. iff it is one of the indexed candidates — and its data
is that candidate's scrape result. -/
theorem mem_flatten_chunkPairs {extract : Parcel → Option PropDict}
    {indexed : List (Nat × Parcel)} {k : Nat} (hk : 0 < k)
    {j : Nat} {v : PropDict} :
    (j, v) ∈ ((roundRobinChunks indexed k).map (workerRun extract)).flatten ↔
      ∃ p, (j, p) ∈ indexed ∧ v = scrapeOne extract p := by
  simp only [List.mem_flatten, List.mem_map, roundRobinChunks,
    List.mem_filter, List.mem_range, workerRun, Prod.mk.injEq]
  constructor
  · rintro ⟨l, ⟨c, ⟨⟨j', hj', rfl⟩, hne⟩, rfl⟩, hm⟩
    obtain ⟨ip, hip, heq⟩ := List.mem_map.mp hm
    obtain ⟨hin, _⟩ := List.mem_filter.mp hip
    obtain ⟨h1, h2⟩ := Prod.mk.injEq .. ▸ heq
    refine ⟨ip.2, ?_, h2.symm⟩
    have hin' : (ip.1, ip.2) ∈ indexed := hin
    rwa [h1] at hin'
  · rintro ⟨p, hm, rfl⟩
    refine ⟨workerRun extract (indexed.filter (fun ip => ip.1 % k == j % k)),
      ⟨indexed.filter (fun ip => ip.1 % k == j % k),
        ⟨⟨j % k, Nat.mod_lt _ hk, rfl⟩, ?_⟩, rfl⟩, ?_⟩
    · have hin : (j, p) ∈ indexed.filter (fun ip => ip.1 % k == j % k) :=
        List.mem_filter.mpr ⟨hm, by simp⟩
      simpa using List.ne_nil_of_mem hin
    · have hin : (j, p) ∈ indexed.filter (fun ip => ip.1 % k == j % k) :=
        List.mem_filter.mpr ⟨hm, by simp⟩
      exact List.mem_map.mpr ⟨(j, p), hin, rfl⟩

/-- The written keys are duplicate-free: shard keys are disjoint residue
classes of duplicate-free input positions. -/
theorem nodup_keys_flatten_chunkPairs (extract : Parcel → Option PropDict)
    (indexed : List (Nat × Parcel)) (k : Nat)
    (hnd : (indexed.map Prod.fst).Nodup) :
    ((((roundRobinChunks indexed k).map (workerRun extract)).flatten).map
      Prod.fst).Nodup := by
  have hfst : ∀ c : List (Nat × Parcel),
      (workerRun extract c).map Prod.fst = c.map Prod.fst := by
    intro c
    simp [workerRun, List.map_map, Function.comp]
  rw [List.map_flatten, List.map_map]
  rw [List.nodup_flatten]
  constructor
  · rintro l hl
    obtain ⟨c, hc, rfl⟩ := List.mem_map.mp hl
    simp only [Function.comp_apply, hfst]
    obtain ⟨hcm, _⟩ := List.mem_filter.mp hc
    obtain ⟨j', _, rfl⟩ := by simpa using hcm
    exact ((List.filter_sublist indexed).map Prod.fst).nodup hnd
  · have hpair : List.Pairwise
        (fun c₁ c₂ : List (Nat × Parcel) =>
          List.Disjoint (c₁.map Prod.fst) (c₂.map Prod.fst))
        ((List.range k).map (fun j => indexed.filter (fun ip => ip.1 % k == j))) := by
      rw [List.pairwise_map]
      refine (List.pairwise_lt_range k).imp ?_
      intro j j' hjj' a ha ha'
      obtain ⟨ip, hip, rfl⟩ := List.mem_map.mp ha
      obtain ⟨ip', hip', hfst'⟩ := List.mem_map.mp ha'
      have h1 : ip.1 % k = j := by
        simpa using (List.mem_filter.mp hip).2
      have h2 : ip'.1 % k = j' := by
        simpa using (List.mem_filter.mp hip').2
      rw [hfst', h1] at h2
      exact absurd h2 (Nat.ne_of_lt hjj')
    have hpairRR : List.Pairwise
        (fun c₁ c₂ : List (Nat × Parcel) =>
          List.Disjoint (c₁.map Prod.fst) (c₂.map Prod.fst))
        (roundRobinChunks indexed k) :=
      List.Pairwise.sublist (List.filter_sublist _) hpair
    rw [List.pairwise_map]
    refine hpairRR.imp ?_
    intro c₁ c₂ h
    simpa [Function.comp, hfst] using h

/-- C4: for any worker count `k ≥ 1` and any completion order of the
worker futures, the scheduler's output equals the input candidate list
mapped through the per-candidate scrape — in particular output order
equals input order — and a candidate whose extraction fails contributes
exactly the minimal `{'parcel_id': …}` record rather than aborting the
batch. -/
theorem C4_parallel_scrape_order (extract : Parcel → Option PropDict)
    (parcels : List Parcel) (k : Nat)
    (completionOrder : List (List (Nat × Parcel))) (hk : 0 < k)
    (hperm : completionOrder.Perm (roundRobinChunks parcels.enum k)) :
    scrapePropertiesParallel extract parcels completionOrder =
      parcels.map (scrapeOne extract) ∧
    ∀ p : Parcel, extract p = none →
      scrapeOne extract p = { parcel_id := p.parcel_id, fields := [] } := by
  refine ⟨?_, fun p hp => by simp [scrapeOne, hp]⟩
  by_cases hemp : parcels.isEmpty
  · have hnil : parcels = [] := List.isEmpty_iff.mp hemp
    subst hnil
    rfl
  · simp only [scrapePropertiesParallel, hemp, Bool.false_eq_true, if_false]
    have hps : ((completionOrder.map (workerRun extract)).flatten).Perm
        (((roundRobinChunks parcels.enum k).map (workerRun extract)).flatten) :=
      flatten_perm_of_perm (hperm.map _)
    have hndRR : (((roundRobinChunks parcels.enum k).map
        (workerRun extract)).flatten.map Prod.fst).Nodup := by
      refine nodup_keys_flatten_chunkPairs extract parcels.enum k ?_
      rw [List.enum_map_fst]
      exact List.nodup_range _
    have hnd : (((completionOrder.map (workerRun extract)).flatten).map
        Prod.fst).Nodup := ((hps.map Prod.fst).nodup_iff).mpr hndRR
    have hmem : ∀ (j : Nat) (v : PropDict),
        (j, v) ∈ (completionOrder.map (workerRun extract)).flatten ↔
          ∃ p, parcels[j]? = some p ∧ v = scrapeOne extract p := by
      intro j v
      rw [hps.mem_iff, mem_flatten_chunkPairs hk]
      constructor
      · rintro ⟨p, hm, rfl⟩
        exact ⟨p, List.mk_mem_enum_iff_getElem?.mp hm, rfl⟩
      · rintro ⟨p, hm, rfl⟩
        exact ⟨p, List.mk_mem_enum_iff_getElem?.mpr hm, rfl⟩
    rw [foldl_placeResults]
    have hfinal : placeResults (List.replicate parcels.length none)
        ((completionOrder.map (workerRun extract)).flatten) =
        parcels.map (fun p => some (scrapeOne extract p)) := by
      refine List.ext_getElem? (fun j => ?_)
      rw [placeResults_getElem? _ _ hnd]
      by_cases hj : j < parcels.length
      · have hpj : parcels[j]? = some parcels[j] := List.getElem?_eq_getElem hj
        have hl : ((completionOrder.map (workerRun extract)).flatten).lookup j =
            some (scrapeOne extract parcels[j]) :=
          lookup_eq_some_of_mem_of_nodup hnd
            ((hmem j _).mpr ⟨parcels[j], hpj, rfl⟩)
        rw [hl]
        simp only [List.length_replicate, if_pos hj, List.getElem?_map, hpj,
          Option.map_some']
      · cases hl : ((completionOrder.map (workerRun extract)).flatten).lookup j with
        | none =>
          rw [List.getElem?_replicate, if_neg hj, List.getElem?_map,
            List.getElem?_eq_none (Nat.le_of_not_lt hj), Option.map_none']
        | some v =>
          obtain ⟨p, hpj, _⟩ := (hmem j v).mp (mem_of_lookup_eq_some hl)
          have : j < parcels.length := by
            by_contra hge
            rw [List.getElem?_eq_none (Nat.le_of_not_lt hge)] at hpj
            cases hpj
          exact absurd this hj
    rw [hfinal, List.filterMap_map]
    have : (Option.some ∘ fun p => scrapeOne extract p) =
        (id ∘ fun p => some (scrapeOne extract p)) := rfl
    rw [← this, List.filterMap_eq_map]

/-- C4 witness: three candidates, two workers, reversed completion order,
middle candidate's extraction failing: output is still in input order with
the minimal record in the middle. -/
theorem C4_parallel_scrape_order_witness :
    scrapePropertiesParallel
      (fun p => if p.parcel_id = "B" then none else some ⟨p.parcel_id, [("ok", "1")]⟩)
      [⟨"A", "u1"⟩, ⟨"B", "u2"⟩, ⟨"C", "u3"⟩]
      ((roundRobinChunks [⟨"A", "u1"⟩, ⟨"B", "u2"⟩, ⟨"C", "u3"⟩].enum 2).reverse) =
      [⟨"A", [("ok", "1")]⟩, ⟨"B", []⟩, ⟨"C", [("ok", "1")]⟩] :=
  (C4_parallel_scrape_order
    (fun p => if p.parcel_id = "B" then none else some ⟨p.parcel_id, [("ok", "1")]⟩)
    [⟨"A", "u1"⟩, ⟨"B", "u2"⟩, ⟨"C", "u3"⟩] 2 _ (by decide)
    (List.reverse_perm _)).1

/-! ## Pipeline Orchestrator status query — `views._get_chain_status`

A chain status query walks the chain's task ids in order, reading each
task's `AsyncResult` snapshot. The snapshot is embedded as `TaskView`;
`float` percent arithmetic is embedded as exact rationals, with Python's
`int(…)` truncation embedded as `Int.floor` (all quantities are
non-negative). -/

/-- The task states distinguished by the status walk. `other` stands for
any state matched by none of the branches (e.g. `RETRY`, `REVOKED`),
which the loop silently skips. -/
inductive TaskState where
  | pending
  | started
  | progress
  | success
  | failure
  | other
deriving Repr, DecidableEq

/-- One task's `AsyncResult` snapshot: state, `info.get('current', 0)`,
`info.get('status', …)`, the result (for `SUCCESS`) and `str(task.info)`
(for `FAILURE`). -/
structure TaskView where
  state : TaskState
  current : Nat := 0
  statusMsg : String := ""
  result : Option String := none
  errorMsg : String := ""
deriving Repr, DecidableEq

/-- The JSON response of `_get_chain_status`, restricted to the fields the
claims speak about. -/
inductive ChainStatus where
  | failure (msg : String)
  | success (result : Option String)
  | progress (current : Int) (statusMsg : String) (step : Nat) (totalSteps : Nat)
deriving Repr, DecidableEq

/-- The `for i, tid in enumerate(task_ids)` loop: the first `FAILURE`
short-circuits with its error; a `SUCCESS` counts as completed and records
its result; the first `PENDING`/`STARTED`/`PROGRESS` task becomes the
active task and stops the walk; any other state falls through to the next
task. -/
def walkChain : List TaskView → Nat → Nat → Option String →
    Except String (Nat × Option String × Option (Nat × TaskView))
  | [], _, completed, last => .ok (completed, last, none)
  | t :: rest, i, completed, last =>
    match t.state with
    | .failure => .error t.errorMsg
    | .success => walkChain rest (i + 1) (completed + 1) t.result
    | .pending => .ok (completed, last, some (i, t))
    | .started => .ok (completed, last, some (i, t))
    | .progress => .ok (completed, last, some (i, t))
    | .other => walkChain rest (i + 1) completed last

/-- `_get_chain_status(first_task_id, chain_info)`: walk the chain; report
`FAILURE` with the failing stage's error, `SUCCESS` with the last stage's
result once all stages completed, and otherwise aggregate
`completed * (100/total) + active.current/100 * (100/total)`, truncated
to an integer. -/
def getChainStatus (tasks : List TaskView) (totalTasks : Nat) : ChainStatus :=
  match walkChain tasks 0 0 none with
  | .error msg => .failure msg
  | .ok (completed, last, active) =>
    if completed = totalTasks then .success last
    else
      let taskWeight : ℚ := 100 / totalTasks
      let baseProgress : ℚ := completed * taskWeight
      let taskProgress : ℚ :=
        match active with
        | some (_, t) =>
          match t.state with
          | .pending => 0
          | _ => (t.current : ℚ) / 100 * taskWeight
        | none => 0
      let statusMsg : String :=
        match active with
        | some (i, t) =>
          match t.state with
          | .pending => "Waiting for task " ++ toString (i + 1) ++ "/" ++
              toString totalTasks ++ "..."
          | _ => t.statusMsg
        | none => "Processing..."
      let step : Nat :=
        match active with
        | some (i, _) => i + 1
        | none => 1
      .progress ⌊baseProgress + taskProgress⌋ statusMsg step totalTasks

/-- `last_result` after walking a fully successful prefix. -/
def lastResultOf (tasks : List TaskView) (last : Option String) : Option String :=
  match tasks.getLast? with
  | some t => t.result
  | none => last

/-- Walking past an all-`SUCCESS` prefix onto a failed stage
short-circuits with that stage's error. -/
theorem walkChain_failure (pre post : List TaskView) (t : TaskView)
    (i completed : Nat) (last : Option String)
    (hpre : ∀ u ∈ pre, u.state = .success) (ht : t.state = .failure) :
    walkChain (pre ++ t :: post) i completed last = .error t.errorMsg := by
  induction pre generalizing i completed last with
  | nil => simp [walkChain, ht]
  | cons u rest ih =>
    have hu : u.state = .success := hpre u (List.mem_cons_self u rest)
    simp only [List.cons_append, walkChain, hu]
    exact ih _ _ _ (fun v hv => hpre v (List.mem_cons_of_mem u hv))

/-- Walking an all-`SUCCESS` list consumes it entirely, counting every
stage and keeping the last result. -/
theorem walkChain_all_success (tasks : List TaskView) (i completed : Nat)
    (last : Option String) (h : ∀ t ∈ tasks, t.state = .success) :
    walkChain tasks i completed last =
      .ok (completed + tasks.length, lastResultOf tasks last, none) := by
  induction tasks generalizing i completed last with
  | nil => simp [walkChain, lastResultOf]
  | cons t rest ih =>
    have ht : t.state = .success := h t (List.mem_cons_self t rest)
    simp only [walkChain, ht]
    rw [ih _ _ _ (fun v hv => h v (List.mem_cons_of_mem t hv))]
    have hlast : lastResultOf rest t.result = lastResultOf (t :: rest) last := by
      cases rest with
      | nil => simp [lastResultOf]
      | cons v vs =>
        simp only [lastResultOf, List.getLast?_cons_cons]
        cases hgl : (v :: vs).getLast? with
        | none => simp at hgl
        | some w => rfl
    have hlen : completed + 1 + rest.length = completed + (t :: rest).length := by
      simp only [List.length_cons]
      omega
    rw [hlast, hlen]

/-- Walking past an all-`SUCCESS` prefix onto a running stage stops there,
reporting it as active with its chain index. -/
theorem walkChain_active (pre post : List TaskView) (t : TaskView)
    (i completed : Nat) (last : Option String)
    (hpre : ∀ u ∈ pre, u.state = .success)
    (ht : t.state = .pending ∨ t.state = .started ∨ t.state = .progress) :
    walkChain (pre ++ t :: post) i completed last =
      .ok (completed + pre.length, lastResultOf pre last,
        some (i + pre.length, t)) := by
  induction pre generalizing i completed last with
  | nil =>
    rcases ht with h | h | h <;> simp [walkChain, h, lastResultOf]
  | cons u rest ih =>
    have hu : u.state = .success := hpre u (List.mem_cons_self u rest)
    simp only [List.cons_append, walkChain, hu, List.append_eq]
    rw [ih _ _ _ (fun v hv => hpre v (List.mem_cons_of_mem u hv))]
    have hlast : lastResultOf rest u.result = lastResultOf (u :: rest) last := by
      cases rest with
      | nil => simp [lastResultOf]
      | cons v vs =>
        simp only [lastResultOf, List.getLast?_cons_cons]
        cases hgl : (v :: vs).getLast? with
        | none => simp at hgl
        | some w => rfl
    have hc : completed + 1 + rest.length = completed + (u :: rest).length := by
      simp only [List.length_cons]
      omega
    have hi : i + 1 + rest.length = i + (u :: rest).length := by
      simp only [List.length_cons]
      omega
    rw [hlast, hc, hi]

/-- The completed count can only reach the full task count if every task
succeeded. -/
theorem walkChain_completed_le (tasks : List TaskView) (i completed : Nat)
    (last : Option String) (c : Nat) (l : Option String)
    (a : Option (Nat × TaskView))
    (h : walkChain tasks i completed last = .ok (c, l, a)) :
    c ≤ completed + tasks.length ∧
      (c = completed + tasks.length → ∀ t ∈ tasks, t.state = .success) := by
  induction tasks generalizing i completed last with
  | nil =>
    simp only [walkChain, Except.ok.injEq, Prod.mk.injEq] at h
    obtain ⟨rfl, -, -⟩ := h
    exact ⟨by omega, fun _ t ht => absurd ht (List.not_mem_nil t)⟩
  | cons t rest ih =>
    cases hs : t.state with
    | failure => simp [walkChain, hs] at h
    | success =>
      simp only [walkChain, hs] at h
      obtain ⟨h1, h2⟩ := ih _ _ _ h
      refine ⟨by simpa [Nat.add_comm, Nat.add_left_comm] using h1, fun hc => ?_⟩
      have : c = completed + 1 + rest.length := by
        simp only [List.length_cons] at hc
        omega
      intro v hv
      rcases List.mem_cons.mp hv with rfl | hv'
      · exact hs
      · exact h2 this v hv'
    | pending =>
      simp only [walkChain, hs, Except.ok.injEq, Prod.mk.injEq] at h
      obtain ⟨rfl, -, -⟩ := h
      refine ⟨Nat.le_add_right _ _, fun hc => ?_⟩
      simp only [List.length_cons] at hc
      omega
    | started =>
      simp only [walkChain, hs, Except.ok.injEq, Prod.mk.injEq] at h
      obtain ⟨rfl, -, -⟩ := h
      refine ⟨Nat.le_add_right _ _, fun hc => ?_⟩
      simp only [List.length_cons] at hc
      omega
    | progress =>
      simp only [walkChain, hs, Except.ok.injEq, Prod.mk.injEq] at h
      obtain ⟨rfl, -, -⟩ := h
      refine ⟨Nat.le_add_right _ _, fun hc => ?_⟩
      simp only [List.length_cons] at hc
      omega
    | other =>
      simp only [walkChain, hs] at h
      obtain ⟨h1, h2⟩ := ih _ _ _ h
      refine ⟨by simp only [List.length_cons]; omega, fun hc => ?_⟩
      simp only [List.length_cons] at hc
      omega

/-! ## Claims C5 and C6 -/

/-- C5: with every stage before the active one succeeded and the active
stage in `PROGRESS` self-reporting `pct`, the reported overall percent is
`⌊completedStages * (100/K) + pct * (1/K)⌋` — the claim's formula,
truncated to an integer. -/
theorem C5_chain_progress_formula (pre post : List TaskView) (t : TaskView)
    (totalTasks pct : Nat)
    (hpre : ∀ u ∈ pre, u.state = .success)
    (ht : t.state = .progress) (hcur : t.current = pct)
    (hlen : (pre ++ t :: post).length = totalTasks) :
    getChainStatus (pre ++ t :: post) totalTasks =
      .progress
        ⌊(pre.length : ℚ) * (100 / totalTasks) + (pct : ℚ) * (1 / totalTasks)⌋
        t.statusMsg (pre.length + 1) totalTasks := by
  have hw := walkChain_active pre post t 0 0 none hpre (Or.inr (Or.inr ht))
  have hne : pre.length ≠ totalTasks := by
    rw [← hlen]
    simp only [List.length_append, List.length_cons]
    omega
  simp only [getChainStatus, hw, Nat.zero_add, if_neg hne, ht]
  have harg : (pre.length : ℚ) * ((100 : ℚ) / totalTasks) +
      (t.current : ℚ) / 100 * ((100 : ℚ) / totalTasks) =
      (pre.length : ℚ) * (100 / totalTasks) + (pct : ℚ) * (1 / totalTasks) := by
    rw [hcur]
    by_cases hK : ((totalTasks : ℚ)) = 0
    · simp [hK]
    · field_simp
  rw [harg]

/-- C5 witness: a 4-stage chain with stage 1 succeeded and stage 2 running
at 50% reports overall percent 37 = ⌊37.5⌋ (within ±1 of 37.5). -/
theorem C5_chain_progress_witness :
    getChainStatus
      [⟨.success, 100, "", some "r1", ""⟩,
       ⟨.progress, 50, "Scraping...", none, ""⟩,
       ⟨.pending, 0, "", none, ""⟩,
       ⟨.pending, 0, "", none, ""⟩] 4 =
      .progress 37 "Scraping..." 2 4 := by
  have h := C5_chain_progress_formula
    [⟨.success, 100, "", some "r1", ""⟩]
    [⟨.pending, 0, "", none, ""⟩, ⟨.pending, 0, "", none, ""⟩]
    ⟨.progress, 50, "Scraping...", none, ""⟩ 4 50
    (by intro u hu; simp at hu; rw [hu]) rfl rfl (by rfl)
  simp only [List.cons_append, List.nil_append, List.length_cons,
    List.length_nil] at h
  rw [h]
  norm_num

/-- C6 counterexample: a chain whose second stage is in a terminal failure
state while its first stage still reports progress is reported as
`PROGRESS`, not `FAILED` — the walk stops at the first non-terminal stage
before ever seeing the failure. -/
theorem C6_counterexample :
    ((⟨.failure, 0, "", none, "boom"⟩ : TaskView) ∈
      ([⟨.progress, 50, "Scraping...", none, ""⟩,
        ⟨.failure, 0, "", none, "boom"⟩] : List TaskView)) ∧
    getChainStatus
      [⟨.progress, 50, "Scraping...", none, ""⟩,
       ⟨.failure, 0, "", none, "boom"⟩] 2 =
      .progress 25 "Scraping..." 1 2 := by
  refine ⟨by simp, ?_⟩
  simp only [getChainStatus, walkChain]
  norm_num

/-- C6 (amended): walking the stages in order, (i) if every stage before a
failed stage succeeded, the query reports `FAILED` with that stage's
error; (ii) if all stages succeeded, it reports `SUCCEEDED` with the last
stage's result; (iii) it never reports success unless every stage
succeeded — but a failure hidden behind a still-running earlier stage is
reported as `PROGRESS` until the walk reaches it. -/
theorem C6_chain_failure_success_reporting :
    (∀ (pre post : List TaskView) (t : TaskView) (totalTasks : Nat),
      (∀ u ∈ pre, u.state = .success) → t.state = .failure →
      getChainStatus (pre ++ t :: post) totalTasks = .failure t.errorMsg) ∧
    (∀ (tasks : List TaskView) (totalTasks : Nat) (hne : tasks ≠ []),
      (∀ t ∈ tasks, t.state = .success) → tasks.length = totalTasks →
      getChainStatus tasks totalTasks = .success (tasks.getLast hne).result) ∧
    (∀ (tasks : List TaskView) (totalTasks : Nat) (r : Option String),
      tasks.length = totalTasks →
      getChainStatus tasks totalTasks = .success r →
      ∀ t ∈ tasks, t.state = .success) := by
  refine ⟨?_, ?_, ?_⟩
  · intro pre post t total hpre ht
    simp only [getChainStatus, walkChain_failure pre post t 0 0 none hpre ht]
  · intro tasks total hne hall hlen
    simp only [getChainStatus, walkChain_all_success tasks 0 0 none hall,
      Nat.zero_add, if_pos hlen]
    have : lastResultOf tasks none = (tasks.getLast hne).result := by
      rw [lastResultOf, List.getLast?_eq_getLast tasks hne]
    rw [this]
  · intro tasks total r hlen h
    cases hw : walkChain tasks 0 0 none with
    | error m => simp [getChainStatus, hw] at h
    | ok res =>
      obtain ⟨c, l, a⟩ := res
      by_cases hc : c = total
      · exact (walkChain_completed_le tasks 0 0 none c l a hw).2 (by omega)
      · simp [getChainStatus, hw, hc] at h

/-- C6 witness: the amended statement at concrete chains: a failure after
one success reports FAILED with its message; an all-success chain reports
SUCCESS with the last stage's result. -/
theorem C6_chain_reporting_witness :
    getChainStatus
      [⟨.success, 100, "", some "r1", ""⟩,
       ⟨.failure, 0, "", none, "boom"⟩,
       ⟨.pending, 0, "", none, ""⟩] 3 = .failure "boom" ∧
    getChainStatus
      [⟨.success, 100, "", some "r1", ""⟩,
       ⟨.success, 100, "", some "r2", ""⟩] 2 = .success (some "r2") := by
  constructor
  · exact C6_chain_failure_success_reporting.1
      [⟨.success, 100, "", some "r1", ""⟩]
      [⟨.pending, 0, "", none, ""⟩]
      ⟨.failure, 0, "", none, "boom"⟩ 3
      (by intro u hu; simp at hu; rw [hu]) rfl
  · exact C6_chain_failure_success_reporting.2.1
      [⟨.success, 100, "", some "r1", ""⟩, ⟨.success, 100, "", some "r2", ""⟩]
      2 (by simp)
      (by intro u hu; simp at hu; rcases hu with rfl | rfl <;> rfl) rfl

end HomeFinder
